/-
Verification of the core rendering kernel of a small Monte-Carlo ray tracer
(`rt_weekend_rust`): vector geometry, ray/sphere intersection, nearest-hit
resolution over a list of hittables, material scattering, and the color
output mapping.

The Rust source works with IEEE-754 `f64`; the shallow embedding models
those values as real numbers (ℝ), which is the idealized arithmetic the
specification reasons in.  Shared material references (`Arc<dyn Material>`)
carry no numeric content relevant to the claims below, so `HitRecord` and
`Sphere` are embedded with their geometric fields only, and material
dispatch / randomness are abstracted as explicit function arguments.
-/
import Mathlib

namespace RTWeekend

/-! ## Vec3 (src/vec3.rs) -/

/-- Embeds `Vec3`: three real components, as in `src/vec3.rs` (`f64` modelled as ℝ). -/
@[ext]
structure Vec3 where
  x : ℝ
  y : ℝ
  z : ℝ

namespace Vec3

/-- Embeds `Vec3::zero`. -/
def zero : Vec3 := ⟨0, 0, 0⟩

/-- Componentwise negation (`impl Neg for Vec3`). -/
instance : Neg Vec3 := ⟨fun v => ⟨-v.x, -v.y, -v.z⟩⟩

/-- Componentwise addition (`impl Add for Vec3`). -/
instance : Add Vec3 := ⟨fun a b => ⟨a.x + b.x, a.y + b.y, a.z + b.z⟩⟩

/-- Componentwise subtraction (`impl Sub for Vec3`). -/
instance : Sub Vec3 := ⟨fun a b => ⟨a.x - b.x, a.y - b.y, a.z - b.z⟩⟩

/-- Componentwise multiplication (`impl Mul for Vec3`). -/
instance : Mul Vec3 := ⟨fun a b => ⟨a.x * b.x, a.y * b.y, a.z * b.z⟩⟩

/-- Scalar multiplication (`impl Mul<f64> for Vec3` / `impl Mul<Vec3> for f64`). -/
instance : SMul ℝ Vec3 := ⟨fun s v => ⟨v.x * s, v.y * s, v.z * s⟩⟩

/-- Division by a scalar: `self * (1.0 / scalar)` (`impl Div<f64> for Vec3`). -/
noncomputable def divScalar (v : Vec3) (s : ℝ) : Vec3 := (1 / s) • v

@[simp] theorem neg_x (v : Vec3) : (-v).x = -v.x := rfl
@[simp] theorem neg_y (v : Vec3) : (-v).y = -v.y := rfl
@[simp] theorem neg_z (v : Vec3) : (-v).z = -v.z := rfl
@[simp] theorem add_x (a b : Vec3) : (a + b).x = a.x + b.x := rfl
@[simp] theorem add_y (a b : Vec3) : (a + b).y = a.y + b.y := rfl
@[simp] theorem add_z (a b : Vec3) : (a + b).z = a.z + b.z := rfl
@[simp] theorem sub_x (a b : Vec3) : (a - b).x = a.x - b.x := rfl
@[simp] theorem sub_y (a b : Vec3) : (a - b).y = a.y - b.y := rfl
@[simp] theorem sub_z (a b : Vec3) : (a - b).z = a.z - b.z := rfl
@[simp] theorem smul_x (s : ℝ) (v : Vec3) : (s • v).x = v.x * s := rfl
@[simp] theorem smul_y (s : ℝ) (v : Vec3) : (s • v).y = v.y * s := rfl
@[simp] theorem smul_z (s : ℝ) (v : Vec3) : (s • v).z = v.z * s := rfl

/-- Embeds `Vec3::length_squared`. -/
def length_squared (v : Vec3) : ℝ := v.x * v.x + v.y * v.y + v.z * v.z

/-- Embeds `Vec3::length`. -/
noncomputable def length (v : Vec3) : ℝ := Real.sqrt v.length_squared

/-- Embeds `Vec3::dot`. -/
def dot (a b : Vec3) : ℝ := a.x * b.x + a.y * b.y + a.z * b.z

/-- Embeds `Vec3::normalized`: `*self / self.length()`. -/
noncomputable def normalized (v : Vec3) : Vec3 := v.divScalar v.length

/-- Embeds `Vec3::reflect`: `*v - (v.dot(*n) * 2.0) * *n`. -/
def reflect (v n : Vec3) : Vec3 := v - (v.dot n * 2) • n

/-- Embeds `Index<usize> for Vec3`: components 0, 1, 2; any other index panics
("Index out of bounds for Vec3").  The panic is embedded as `none`. -/
def index (v : Vec3) (i : ℕ) : Option ℝ :=
  match i with
  | 0 => some v.x
  | 1 => some v.y
  | 2 => some v.z
  | _ => none

/-- Embeds `IndexMut<usize> for Vec3`, observed as the write it performs: storing
`val` through the returned mutable reference.  Out-of-range indices panic,
embedded as `none`. -/
def indexMutSet (v : Vec3) (i : ℕ) (val : ℝ) : Option Vec3 :=
  match i with
  | 0 => some ⟨val, v.y, v.z⟩
  | 1 => some ⟨v.x, val, v.z⟩
  | 2 => some ⟨v.x, v.y, val⟩
  | _ => none

end Vec3

/-- Alias `Point3` of `Vec3` (src/vec3.rs). -/
abbrev Point3 := Vec3

/-- Alias `Color` of `Vec3` (src/color.rs). -/
abbrev Color := Vec3

/-! ## Ray (src/ray.rs) -/

/-- Embeds `Ray`: origin and direction. -/
structure Ray where
  orig : Point3
  dir : Vec3

namespace Ray

/-- Embeds `Ray::at`: `self.orig + t * self.dir` (`at` is reserved in Lean). -/
def pointAt (r : Ray) (t : ℝ) : Point3 := r.orig + t • r.dir

end Ray

/-! ## Interval (src/interval.rs) -/

/-- Embeds `Interval`: real bounds `min`, `max`. -/
structure Interval where
  min : ℝ
  max : ℝ

namespace Interval

/-- Embeds `Interval::contains`: `self.min <= x && x <= self.max`. -/
def contains (i : Interval) (x : ℝ) : Prop := i.min ≤ x ∧ x ≤ i.max

/-- Embeds `Interval::surrounds`: `self.min < x && x < self.max`. -/
def surrounds (i : Interval) (x : ℝ) : Prop := i.min < x ∧ x < i.max

noncomputable instance (i : Interval) (x : ℝ) : Decidable (i.surrounds x) :=
  inferInstanceAs (Decidable (_ ∧ _))

/-- Embeds `Interval::clamp`. -/
noncomputable def clamp (i : Interval) (x : ℝ) : ℝ :=
  if x < i.min then i.min else if x > i.max then i.max else x

end Interval

/-! ## HitRecord and the Hittable contract (src/hittable.rs) -/

/-- Embeds `HitRecord` (src/hittable.rs): contact point `p`, sign-corrected `normal`,
parametric distance `t`, and `front_face` flag.  The shared material
reference (`mat: Arc<dyn Material>`) carries no numeric content, so it is
not embedded; material dispatch is abstracted where needed. -/
@[ext]
structure HitRecord where
  p : Point3
  normal : Vec3
  t : ℝ
  front_face : Bool

namespace HitRecord

/-- Embeds `HitRecord::set_face_normal`:
`front_face = r.dir.dot(outward_normal) < 0.0`;
`normal = if front_face { outward_normal } else { -outward_normal }`. -/
noncomputable def set_face_normal (rec : HitRecord) (r : Ray) (outward_normal : Vec3) :
    HitRecord :=
  let ff : Bool := decide (r.dir.dot outward_normal < 0)
  { rec with
    front_face := ff
    normal := if ff then outward_normal else -outward_normal }

end HitRecord

/-- A `Hittable` is abstracted by its `hit` method
(`fn hit(&self, r: &Ray, ray_t: Interval) -> Option<HitRecord>`). -/
abbrev HitFn := Ray → Interval → Option HitRecord

/-! ## Sphere (src/sphere.rs) -/

/-- Embeds `Sphere`: center and radius (the material reference is not embedded). -/
structure Sphere where
  center : Point3
  radius : ℝ

namespace Sphere

/-- The record built by `Sphere::hit` once a root is accepted:
`rec.t = root; rec.p = r.at(rec.t);` outward normal `(rec.p - center) / radius`
passed through `set_face_normal`. -/
noncomputable def hitRecordAt (s : Sphere) (r : Ray) (root : ℝ) : HitRecord :=
  let p := r.pointAt root
  let outward_normal := (p - s.center).divScalar s.radius
  HitRecord.set_face_normal ⟨p, (p - s.center).divScalar s.radius, root, true⟩ r outward_normal

/-- Embeds `Sphere::hit` (src/sphere.rs lines 20-50): quadratic discriminant test,
then try the root `(h - √d)/a`, falling back to `(h + √d)/a`, each gated by
`ray_t.surrounds`. -/
noncomputable def hit (s : Sphere) (r : Ray) (ray_t : Interval) : Option HitRecord :=
  let oc := s.center - r.orig
  let a := r.dir.length_squared
  let h := r.dir.dot oc
  let c := oc.length_squared - s.radius * s.radius
  let discriminant := h * h - a * c
  if discriminant < 0 then none
  else
    let sqrtd := Real.sqrt discriminant
    let root₁ := (h - sqrtd) / a
    if ray_t.surrounds root₁ then some (s.hitRecordAt r root₁)
    else
      let root₂ := (h + sqrtd) / a
      if ray_t.surrounds root₂ then some (s.hitRecordAt r root₂) else none

end Sphere

/-! ## HittableList (src/hittable_list.rs) -/

/-- The loop body of `HittableList::hit`: iterate over the objects, keeping
`closest_so_far` (initially `ray_t.max`) and the best record; each object is
queried with `Interval::new(ray_t.min, closest_so_far)`. -/
def hitLoop (r : Ray) (tmin : ℝ) :
    List HitFn → ℝ → Option HitRecord → Option HitRecord
  | [], _, acc => acc
  | o :: rest, closest_so_far, acc =>
    match o r ⟨tmin, closest_so_far⟩ with
    | some hit_rec => hitLoop r tmin rest hit_rec.t (some hit_rec)
    | none => hitLoop r tmin rest closest_so_far acc

/-- Embeds `HittableList::hit` (src/hittable_list.rs lines 32-44), with the object
list abstracted as the list of the members' `hit` functions. -/
def hittableListHit (objects : List HitFn) (r : Ray) (ray_t : Interval) :
    Option HitRecord :=
  hitLoop r ray_t.min objects ray_t.max none

/-! ## Materials (src/material.rs) -/

/-- Embeds `Metal`: albedo and fuzz as constructed (`Metal::new` stores them raw). -/
structure Metal where
  albedo : Color
  fuzz : ℝ

namespace Metal

/-- Embeds `Metal::scatter` (src/material.rs lines 50-60), with the call to
`Vec3::random_unit_vector()` abstracted as the argument `rand_unit`:
reflect, normalize, perturb by `fuzz.min(1.0).max(0.0) * rand_unit`,
and always return `Some` with the fixed albedo as attenuation. -/
noncomputable def scatter (m : Metal) (r_in : Ray) (rec : HitRecord)
    (rand_unit : Vec3) : Option (Ray × Color) :=
  let reflected := Vec3.reflect r_in.dir rec.normal
  let reflected₂ := reflected.normalized + (max (min m.fuzz 1) 0) • rand_unit
  let scattered : Ray := ⟨rec.p, reflected₂⟩
  let attenuation := m.albedo
  some (scattered, attenuation)

end Metal

/-! ## Color output (src/color.rs) -/

/-- Embeds `linear_to_gamma`: `sqrt` for positive input, `0` otherwise. -/
noncomputable def linear_to_gamma (linear_component : ℝ) : ℝ :=
  if linear_component > 0 then Real.sqrt linear_component else 0

/-- The per-channel byte computation of `write_color`:
gamma-encode, clamp to `Interval::new(0.000, 0.999)`, scale by `255.999`,
truncate to an integer (`as u8`; the value is nonnegative, so truncation
is the floor). -/
noncomputable def colorByte (channel : ℝ) : ℤ :=
  let intensity : Interval := ⟨0, 0.999⟩
  ⌊(255.999 : ℝ) * intensity.clamp (linear_to_gamma channel)⌋

/-- Embeds `write_color` observed as the three bytes it emits for a pixel color. -/
noncomputable def writeColorBytes (pixel_color : Color) : ℤ × ℤ × ℤ :=
  (colorByte pixel_color.x, colorByte pixel_color.y, colorByte pixel_color.z)

/-! ## Camera::ray_color (src/camera.rs lines 207-226) -/

/-- Embeds `Camera::ray_color`, with the scene abstracted as the function
`world : Ray → Option HitRecord` (the source always queries the scene at the
fixed interval `(0.001, ∞)`, so that interval is folded into `world`) and
material dispatch plus its randomness abstracted as
`scatter : Ray → HitRecord → Option (Ray × Color)`.  `background` is the
sky-gradient function of the source's no-hit branch.  Depth `0` returns
black before the scene is consulted. -/
def rayColor (world : Ray → Option HitRecord)
    (scatter : Ray → HitRecord → Option (Ray × Color))
    (background : Ray → Color) : Ray → ℕ → Color
  | _, 0 => Vec3.zero
  | r, depth + 1 =>
    match world r with
    | some rec =>
      match scatter r rec with
      | some (scattered, attenuation) =>
        attenuation * rayColor world scatter background scattered depth
      | none => Vec3.zero
    | none => background r

/-! ## Helper lemmas about the vector kernel -/

namespace Vec3

theorem dot_comm (a b : Vec3) : a.dot b = b.dot a := by
  simp only [dot]; ring

theorem dot_self_eq_length_squared (v : Vec3) : v.dot v = v.length_squared := rfl

theorem length_squared_nonneg (v : Vec3) : 0 ≤ v.length_squared := by
  simp only [length_squared]
  nlinarith [sq_nonneg v.x, sq_nonneg v.y, sq_nonneg v.z]

theorem length_squared_eq_zero_iff (v : Vec3) : v.length_squared = 0 ↔ v = zero := by
  constructor
  · intro h
    simp only [length_squared] at h
    have hx : v.x = 0 := by nlinarith [sq_nonneg v.x, sq_nonneg v.y, sq_nonneg v.z]
    have hy : v.y = 0 := by nlinarith [sq_nonneg v.x, sq_nonneg v.y, sq_nonneg v.z]
    have hz : v.z = 0 := by nlinarith [sq_nonneg v.x, sq_nonneg v.y, sq_nonneg v.z]
    ext <;> simp [hx, hy, hz, zero]
  · rintro rfl
    simp [length_squared, zero]

theorem length_squared_smul (k : ℝ) (v : Vec3) :
    (k • v).length_squared = k ^ 2 * v.length_squared := by
  simp only [length_squared, smul_x, smul_y, smul_z]; ring

theorem dot_smul_left (k : ℝ) (v w : Vec3) : (k • v).dot w = k * v.dot w := by
  simp only [dot, smul_x, smul_y, smul_z]; ring

theorem dot_smul_right (k : ℝ) (v w : Vec3) : v.dot (k • w) = k * v.dot w := by
  simp only [dot, smul_x, smul_y, smul_z]; ring

theorem smul_smul_eq (a b : ℝ) (v : Vec3) : a • (b • v) = (a * b) • v := by
  ext <;> simp <;> ring

theorem cauchy_schwarz_sq (a b : Vec3) :
    (a.dot b) ^ 2 ≤ a.length_squared * b.length_squared := by
  simp only [dot, length_squared]
  nlinarith [sq_nonneg (a.x * b.y - a.y * b.x), sq_nonneg (a.x * b.z - a.z * b.x),
    sq_nonneg (a.y * b.z - a.z * b.y)]

/-- For a nonzero vector, `normalized` has squared length 1. -/
theorem length_squared_normalized (v : Vec3) (hv : v ≠ zero) :
    v.normalized.length_squared = 1 := by
  have h0 : v.length_squared ≠ 0 := fun h => hv ((length_squared_eq_zero_iff v).mp h)
  have hpos : 0 < v.length_squared := lt_of_le_of_ne (length_squared_nonneg v) (Ne.symm h0)
  have hlen : v.length ^ 2 = v.length_squared := Real.sq_sqrt (length_squared_nonneg v)
  have hlen0 : v.length ≠ 0 := by
    intro h
    rw [h] at hlen
    simp at hlen
    exact h0 hlen.symm
  simp only [normalized, divScalar, length_squared_smul]
  field_simp
  linarith [hlen]

/-- Reflection about a unit normal preserves squared length. -/
theorem length_squared_reflect (v n : Vec3) (hn : n.dot n = 1) :
    (reflect v n).length_squared = v.length_squared := by
  simp only [dot] at hn
  simp only [reflect, dot, length_squared, sub_x, sub_y, sub_z, smul_x, smul_y, smul_z]
  linear_combination
    (4 * (v.x * n.x + v.y * n.y + v.z * n.z) ^ 2) * hn

end Vec3

/-! ## Claim theorems -/

/-- C6: for every pair of vectors `v` and `n`, `reflect(v, n)` equals
`v - 2·dot(v,n)·n` componentwise, and when `n` is a unit vector
(`dot(n,n) = 1`) the result satisfies `dot(reflect(v,n), n) = -dot(v,n)`. -/
theorem reflect_formula_and_opposes (v n : Vec3) :
    Vec3.reflect v n
      = ⟨v.x - 2 * v.dot n * n.x, v.y - 2 * v.dot n * n.y, v.z - 2 * v.dot n * n.z⟩
    ∧ (n.dot n = 1 → (Vec3.reflect v n).dot n = -(v.dot n)) := by
  constructor
  · ext <;> simp [Vec3.reflect, Vec3.dot] <;> ring
  · intro hn
    simp only [Vec3.dot] at hn ⊢
    simp only [Vec3.reflect, Vec3.sub_x, Vec3.sub_y, Vec3.sub_z, Vec3.smul_x, Vec3.smul_y,
      Vec3.smul_z, Vec3.dot]
    linear_combination (-2 * (v.x * n.x + v.y * n.y + v.z * n.z)) * hn

/-- Witness for C6 at `v = (1,2,3)`, `n = (1,0,0)`. -/
theorem reflect_formula_and_opposes_witness :
    Vec3.reflect ⟨1, 2, 3⟩ ⟨1, 0, 0⟩
      = ⟨1 - 2 * Vec3.dot ⟨1, 2, 3⟩ ⟨1, 0, 0⟩ * 1,
         2 - 2 * Vec3.dot ⟨1, 2, 3⟩ ⟨1, 0, 0⟩ * 0,
         3 - 2 * Vec3.dot ⟨1, 2, 3⟩ ⟨1, 0, 0⟩ * 0⟩
    ∧ (Vec3.reflect ⟨1, 2, 3⟩ ⟨1, 0, 0⟩).dot ⟨1, 0, 0⟩ = -(Vec3.dot ⟨1, 2, 3⟩ ⟨1, 0, 0⟩) :=
  ⟨(reflect_formula_and_opposes ⟨1, 2, 3⟩ ⟨1, 0, 0⟩).1,
   (reflect_formula_and_opposes ⟨1, 2, 3⟩ ⟨1, 0, 0⟩).2 (by simp [Vec3.dot])⟩

/-- C3: `ray_color` called with remaining depth 0 returns exactly black
`(0,0,0)`, for every scene, every material dispatch and every ray —
the scene function is never consulted. -/
theorem rayColor_depth_zero (world : Ray → Option HitRecord)
    (scatter : Ray → HitRecord → Option (Ray × Color))
    (background : Ray → Color) (r : Ray) :
    rayColor world scatter background r 0 = Vec3.zero := rfl

/-- C7: `Metal::scatter` always returns `Some`, with attenuation exactly the
material's albedo, scattered origin at the hit point, and the fuzz factor
multiplying the random unit vector clamped to `[0,1]`
(`self.fuzz.min(1.0).max(0.0)`), whatever fuzz the `Metal` was built with. -/
theorem metal_scatter_always_some (m : Metal) (r_in : Ray) (rec : HitRecord)
    (rand_unit : Vec3) :
    m.scatter r_in rec rand_unit
      = some (⟨rec.p, (Vec3.reflect r_in.dir rec.normal).normalized
          + (max (min m.fuzz 1) 0) • rand_unit⟩, m.albedo)
    ∧ 0 ≤ max (min m.fuzz 1) 0 ∧ max (min m.fuzz 1) 0 ≤ 1 :=
  ⟨rfl, le_max_right _ 0, max_le (le_trans (min_le_right _ _) le_rfl) zero_le_one⟩

/-- C8: indexing a `Vec3` with 0, 1, 2 returns the x, y, z component
respectively (and the mutable counterpart writes that component), while any
index greater than 2 panics (embedded as `none`) for both read and write. -/
theorem vec3_index_spec (v : Vec3) (val : ℝ) (i : ℕ) (hi : 2 < i) :
    v.index 0 = some v.x ∧ v.index 1 = some v.y ∧ v.index 2 = some v.z
    ∧ v.indexMutSet 0 val = some ⟨val, v.y, v.z⟩
    ∧ v.indexMutSet 1 val = some ⟨v.x, val, v.z⟩
    ∧ v.indexMutSet 2 val = some ⟨v.x, v.y, val⟩
    ∧ v.index i = none ∧ v.indexMutSet i val = none := by
  obtain ⟨j, rfl⟩ : ∃ j, i = j + 3 := ⟨i - 3, by omega⟩
  exact ⟨rfl, rfl, rfl, rfl, rfl, rfl, rfl, rfl⟩

/-! Helper lemmas for the color mapping (C5). -/

theorem intensity_clamp_bounds (x : ℝ) :
    0 ≤ Interval.clamp ⟨0, 0.999⟩ x ∧ Interval.clamp ⟨0, 0.999⟩ x ≤ 0.999 := by
  simp only [Interval.clamp]
  split_ifs with h1 h2 <;> constructor <;> norm_num <;> linarith

theorem colorByte_zero : colorByte 0 = 0 := by
  have hg : linear_to_gamma 0 = 0 := by norm_num [linear_to_gamma]
  have hc : Interval.clamp ⟨0, 0.999⟩ 0 = 0 := by norm_num [Interval.clamp]
  simp only [colorByte, hg, hc, mul_zero, Int.floor_zero]

theorem colorByte_one : colorByte 1 = 255 := by
  have hg : linear_to_gamma 1 = 1 := by
    simp [linear_to_gamma, Real.sqrt_one]
  have hc : Interval.clamp ⟨0, 0.999⟩ 1 = 0.999 := by norm_num [Interval.clamp]
  simp only [colorByte, hg, hc]
  rw [Int.floor_eq_iff]
  constructor <;> norm_num

theorem colorByte_bounds (x : ℝ) : 0 ≤ colorByte x ∧ colorByte x ≤ 255 := by
  obtain ⟨hlo, hhi⟩ := intensity_clamp_bounds (linear_to_gamma x)
  simp only [colorByte]
  constructor
  · exact Int.floor_nonneg.mpr (by nlinarith)
  · have h : (255.999 : ℝ) * Interval.clamp ⟨0, 0.999⟩ (linear_to_gamma x) < ((256 : ℤ) : ℝ) := by
      push_cast
      nlinarith
    have := Int.floor_lt.mpr h
    omega

/-- C5: the per-channel gamma/byte mapping of `write_color` sends `(0,0,0)`
to bytes `(0,0,0)` and `(1,1,1)` to bytes `(255,255,255)`, and for every real
input each emitted byte lies in 0–255: the channel is square-root
gamma-encoded (0 for non-positive input), clamped to `[0, 0.999]`, scaled by
`255.999` and truncated. -/
theorem write_color_gamma_byte_mapping :
    writeColorBytes ⟨0, 0, 0⟩ = (0, 0, 0)
    ∧ writeColorBytes ⟨1, 1, 1⟩ = (255, 255, 255)
    ∧ ∀ c : Color,
        (0 ≤ (writeColorBytes c).1 ∧ (writeColorBytes c).1 ≤ 255)
        ∧ (0 ≤ (writeColorBytes c).2.1 ∧ (writeColorBytes c).2.1 ≤ 255)
        ∧ (0 ≤ (writeColorBytes c).2.2 ∧ (writeColorBytes c).2.2 ≤ 255) := by
  refine ⟨?_, ?_, ?_⟩
  · simp [writeColorBytes, colorByte_zero]
  · simp [writeColorBytes, colorByte_one]
  · intro c
    exact ⟨colorByte_bounds c.x, colorByte_bounds c.y, colorByte_bounds c.z⟩

/-! Helper lemmas describing the branch structure of `Sphere::hit`. -/

theorem Vec3.dot_neg_left (v w : Vec3) : (-v).dot w = -(v.dot w) := by
  simp only [Vec3.dot, Vec3.neg_x, Vec3.neg_y, Vec3.neg_z]; ring

theorem Sphere.hit_eq_none_of_disc_neg (s : Sphere) (r : Ray) (ray_t : Interval)
    (h0 : r.dir.dot (s.center - r.orig) * r.dir.dot (s.center - r.orig)
        - r.dir.length_squared
          * ((s.center - r.orig).length_squared - s.radius * s.radius) < 0) :
    s.hit r ray_t = none := by
  simp only [Sphere.hit]
  rw [if_pos h0]

theorem Sphere.hit_eq_some_root₁ (s : Sphere) (r : Ray) (ray_t : Interval) (root : ℝ)
    (h0 : ¬ (r.dir.dot (s.center - r.orig) * r.dir.dot (s.center - r.orig)
        - r.dir.length_squared
          * ((s.center - r.orig).length_squared - s.radius * s.radius) < 0))
    (hroot : root = (r.dir.dot (s.center - r.orig)
        - Real.sqrt (r.dir.dot (s.center - r.orig) * r.dir.dot (s.center - r.orig)
          - r.dir.length_squared
            * ((s.center - r.orig).length_squared - s.radius * s.radius)))
        / r.dir.length_squared)
    (h1 : ray_t.surrounds root) :
    s.hit r ray_t = some (s.hitRecordAt r root) := by
  subst hroot
  simp only [Sphere.hit]
  rw [if_neg h0, if_pos h1]

theorem Sphere.hit_eq_some_root₂ (s : Sphere) (r : Ray) (ray_t : Interval) (root : ℝ)
    (h0 : ¬ (r.dir.dot (s.center - r.orig) * r.dir.dot (s.center - r.orig)
        - r.dir.length_squared
          * ((s.center - r.orig).length_squared - s.radius * s.radius) < 0))
    (h1 : ¬ ray_t.surrounds ((r.dir.dot (s.center - r.orig)
        - Real.sqrt (r.dir.dot (s.center - r.orig) * r.dir.dot (s.center - r.orig)
          - r.dir.length_squared
            * ((s.center - r.orig).length_squared - s.radius * s.radius)))
        / r.dir.length_squared))
    (hroot : root = (r.dir.dot (s.center - r.orig)
        + Real.sqrt (r.dir.dot (s.center - r.orig) * r.dir.dot (s.center - r.orig)
          - r.dir.length_squared
            * ((s.center - r.orig).length_squared - s.radius * s.radius)))
        / r.dir.length_squared)
    (h2 : ray_t.surrounds root) :
    s.hit r ray_t = some (s.hitRecordAt r root) := by
  subst hroot
  simp only [Sphere.hit]
  rw [if_neg h0, if_neg h1, if_pos h2]

theorem Sphere.hit_eq_none_of_no_valid_root (s : Sphere) (r : Ray) (ray_t : Interval)
    (h1 : ¬ ray_t.surrounds ((r.dir.dot (s.center - r.orig)
        - Real.sqrt (r.dir.dot (s.center - r.orig) * r.dir.dot (s.center - r.orig)
          - r.dir.length_squared
            * ((s.center - r.orig).length_squared - s.radius * s.radius)))
        / r.dir.length_squared))
    (h2 : ¬ ray_t.surrounds ((r.dir.dot (s.center - r.orig)
        + Real.sqrt (r.dir.dot (s.center - r.orig) * r.dir.dot (s.center - r.orig)
          - r.dir.length_squared
            * ((s.center - r.orig).length_squared - s.radius * s.radius)))
        / r.dir.length_squared)) :
    s.hit r ray_t = none := by
  by_cases h0 : r.dir.dot (s.center - r.orig) * r.dir.dot (s.center - r.orig)
      - r.dir.length_squared
        * ((s.center - r.orig).length_squared - s.radius * s.radius) < 0
  · exact Sphere.hit_eq_none_of_disc_neg s r ray_t h0
  · simp only [Sphere.hit]
    rw [if_neg h0, if_neg h1, if_neg h2]

theorem Sphere.hitRecordAt_t (s : Sphere) (r : Ray) (root : ℝ) :
    (s.hitRecordAt r root).t = root := rfl

theorem Sphere.hitRecordAt_p (s : Sphere) (r : Ray) (root : ℝ) :
    (s.hitRecordAt r root).p = r.pointAt root := rfl

theorem Sphere.hitRecordAt_front_face (s : Sphere) (r : Ray) (root : ℝ) :
    (s.hitRecordAt r root).front_face
      = decide (r.dir.dot ((r.pointAt root - s.center).divScalar s.radius) < 0) := rfl

theorem Sphere.hitRecordAt_normal (s : Sphere) (r : Ray) (root : ℝ) :
    (s.hitRecordAt r root).normal
      = (if r.dir.dot ((r.pointAt root - s.center).divScalar s.radius) < 0
          then (r.pointAt root - s.center).divScalar s.radius
          else -((r.pointAt root - s.center).divScalar s.radius)) := by
  by_cases h : r.dir.dot ((r.pointAt root - s.center).divScalar s.radius) < 0 <;>
    simp [Sphere.hitRecordAt, HitRecord.set_face_normal, h]

/-- Every record returned by `Sphere::hit` is `hitRecordAt` at one of the two
quadratic roots, accepted by `surrounds`, with a nonnegative discriminant. -/
theorem Sphere.hit_some_shape (s : Sphere) (r : Ray) (ray_t : Interval) (rec : HitRecord)
    (hrec : s.hit r ray_t = some rec) :
    ∃ root, rec = s.hitRecordAt r root ∧ ray_t.surrounds root
      ∧ ¬ (r.dir.dot (s.center - r.orig) * r.dir.dot (s.center - r.orig)
          - r.dir.length_squared
            * ((s.center - r.orig).length_squared - s.radius * s.radius) < 0)
      ∧ (root = (r.dir.dot (s.center - r.orig)
            - Real.sqrt (r.dir.dot (s.center - r.orig) * r.dir.dot (s.center - r.orig)
              - r.dir.length_squared
                * ((s.center - r.orig).length_squared - s.radius * s.radius)))
            / r.dir.length_squared
        ∨ root = (r.dir.dot (s.center - r.orig)
            + Real.sqrt (r.dir.dot (s.center - r.orig) * r.dir.dot (s.center - r.orig)
              - r.dir.length_squared
                * ((s.center - r.orig).length_squared - s.radius * s.radius)))
            / r.dir.length_squared) := by
  simp only [Sphere.hit] at hrec
  split_ifs at hrec with h0 h1 h2
  · exact ⟨_, (Option.some.injEq _ _ ▸ hrec).symm, h1, h0, Or.inl rfl⟩
  · exact ⟨_, (Option.some.injEq _ _ ▸ hrec).symm, h2, h0, Or.inr rfl⟩

/-- C4: every `HitRecord` produced by `Sphere::hit` has `front_face` true
exactly when `dot(ray.dir, outward_normal) < 0` (where the outward normal is
`(rec.p - center) / radius`), its stored normal is the outward normal when
`front_face` holds and its negation otherwise, and consequently
`dot(rec.normal, ray.dir) ≤ 0`. -/
theorem sphere_hit_normal_opposes_ray (s : Sphere) (r : Ray) (ray_t : Interval)
    (rec : HitRecord) (hrec : s.hit r ray_t = some rec) :
    (rec.front_face = true ↔ r.dir.dot ((rec.p - s.center).divScalar s.radius) < 0)
    ∧ rec.normal = (if rec.front_face
        then (rec.p - s.center).divScalar s.radius
        else -((rec.p - s.center).divScalar s.radius))
    ∧ rec.normal.dot r.dir ≤ 0 := by
  obtain ⟨root, rfl, -⟩ := Sphere.hit_some_shape s r ray_t rec hrec
  rw [Sphere.hitRecordAt_p, Sphere.hitRecordAt_front_face, Sphere.hitRecordAt_normal]
  by_cases h : r.dir.dot ((r.pointAt root - s.center).divScalar s.radius) < 0
  · refine ⟨by simp [h], by simp [h], ?_⟩
    rw [if_pos h, Vec3.dot_comm]
    exact le_of_lt h
  · refine ⟨by simp [h], by simp [h], ?_⟩
    rw [if_neg h, Vec3.dot_neg_left, Vec3.dot_comm]
    simp only [not_lt] at h
    linarith

/-- A fully computed intersection: the unit sphere centered at `(2,0,0)` hit
by the ray from the origin along `(1,0,0)` with search interval `(0, 10)`:
the nearer root is `t = 1`, contact point `(1,0,0)`, outward (and stored)
normal `(-1,0,0)`, `front_face = true`. -/
theorem hit_example :
    Sphere.hit ⟨⟨2, 0, 0⟩, 1⟩ ⟨⟨0, 0, 0⟩, ⟨1, 0, 0⟩⟩ ⟨0, 10⟩
      = some ⟨⟨1, 0, 0⟩, ⟨-1, 0, 0⟩, 1, true⟩ := by
  have hrec : Sphere.hitRecordAt ⟨⟨2, 0, 0⟩, 1⟩ ⟨⟨0, 0, 0⟩, ⟨1, 0, 0⟩⟩ 1
      = (⟨⟨1, 0, 0⟩, ⟨-1, 0, 0⟩, 1, true⟩ : HitRecord) := by
    have hp : Ray.pointAt ⟨⟨0, 0, 0⟩, ⟨1, 0, 0⟩⟩ 1 = (⟨1, 0, 0⟩ : Vec3) := by
      ext <;> norm_num [Ray.pointAt]
    have hout : ((⟨1, 0, 0⟩ : Vec3) - ⟨2, 0, 0⟩).divScalar 1 = (⟨-1, 0, 0⟩ : Vec3) := by
      ext <;> norm_num [Vec3.divScalar]
    have hdot : (⟨1, 0, 0⟩ : Vec3).dot ⟨-1, 0, 0⟩ < 0 := by norm_num [Vec3.dot]
    simp only [Sphere.hitRecordAt, HitRecord.set_face_normal, hp, hout]
    simp [hdot]
  refine (Sphere.hit_eq_some_root₁ ⟨⟨2, 0, 0⟩, 1⟩ ⟨⟨0, 0, 0⟩, ⟨1, 0, 0⟩⟩ ⟨0, 10⟩ 1 ?_ ?_ ?_).trans
    (congrArg some hrec)
  · norm_num [Vec3.dot, Vec3.length_squared]
  · have harg : (⟨⟨0, 0, 0⟩, ⟨1, 0, 0⟩⟩ : Ray).dir.dot ((⟨⟨2, 0, 0⟩, 1⟩ : Sphere).center
        - (⟨⟨0, 0, 0⟩, ⟨1, 0, 0⟩⟩ : Ray).orig) * (⟨⟨0, 0, 0⟩, ⟨1, 0, 0⟩⟩ : Ray).dir.dot
          ((⟨⟨2, 0, 0⟩, 1⟩ : Sphere).center - (⟨⟨0, 0, 0⟩, ⟨1, 0, 0⟩⟩ : Ray).orig)
        - (⟨⟨0, 0, 0⟩, ⟨1, 0, 0⟩⟩ : Ray).dir.length_squared
          * (((⟨⟨2, 0, 0⟩, 1⟩ : Sphere).center
              - (⟨⟨0, 0, 0⟩, ⟨1, 0, 0⟩⟩ : Ray).orig).length_squared
            - (⟨⟨2, 0, 0⟩, 1⟩ : Sphere).radius * (⟨⟨2, 0, 0⟩, 1⟩ : Sphere).radius) = 1 := by
      norm_num [Vec3.dot, Vec3.length_squared]
    rw [harg]
    norm_num [Vec3.dot, Vec3.length_squared, Real.sqrt_one]
  · constructor <;> norm_num

/-- The root-selection rule exactly as the specification words it (§4.2):
solve `a·t² - 2h·t + c = 0` with `a = |dir|²`, `h = dir·oc`, `c = |oc|² - r²`;
negative discriminant means no hit, otherwise take the smaller root
`(h - √disc)/a` if it satisfies `surrounds`, else the larger root
`(h + √disc)/a` if it satisfies `surrounds`, else no hit. -/
noncomputable def sphereHitRootSpec (s : Sphere) (r : Ray) (ray_t : Interval) : Option ℝ :=
  let oc := s.center - r.orig
  let a := r.dir.length_squared
  let h := r.dir.dot oc
  let c := oc.length_squared - s.radius * s.radius
  let disc := h * h - a * c
  if disc < 0 then none
  else if ray_t.surrounds ((h - Real.sqrt disc) / a) then some ((h - Real.sqrt disc) / a)
  else if ray_t.surrounds ((h + Real.sqrt disc) / a) then some ((h + Real.sqrt disc) / a)
  else none

/-- C2: `Sphere::hit` realizes exactly the spec's root selection (negative
discriminant ⇒ `None`; else the smaller root `(h-√disc)/a` when `surrounds`
accepts it, else the larger root, else `None`), the returned `t` lies
strictly inside the interval (`surrounds`, not `contains`), and it solves
the quadratic `a·t² - 2h·t + c = 0` whenever `a ≠ 0`. -/
theorem sphere_hit_quadratic_selection (s : Sphere) (r : Ray) (ray_t : Interval) :
    Option.map HitRecord.t (s.hit r ray_t) = sphereHitRootSpec s r ray_t
    ∧ ∀ rec, s.hit r ray_t = some rec →
        (ray_t.min < rec.t ∧ rec.t < ray_t.max)
        ∧ (r.dir.length_squared ≠ 0 →
            r.dir.length_squared * rec.t ^ 2
              - 2 * r.dir.dot (s.center - r.orig) * rec.t
              + ((s.center - r.orig).length_squared - s.radius * s.radius) = 0) := by
  constructor
  · simp only [Sphere.hit, sphereHitRootSpec]
    split_ifs <;> simp [Sphere.hitRecordAt_t]
  · intro rec hrec
    obtain ⟨root, rfl, hsur, hd, hor⟩ := Sphere.hit_some_shape s r ray_t rec hrec
    rw [Sphere.hitRecordAt_t]
    refine ⟨hsur, fun ha => ?_⟩
    have hs2 : Real.sqrt (r.dir.dot (s.center - r.orig) * r.dir.dot (s.center - r.orig)
        - r.dir.length_squared
          * ((s.center - r.orig).length_squared - s.radius * s.radius)) ^ 2
        = r.dir.dot (s.center - r.orig) * r.dir.dot (s.center - r.orig)
          - r.dir.length_squared
            * ((s.center - r.orig).length_squared - s.radius * s.radius) :=
      Real.sq_sqrt (not_lt.mp hd)
    rcases hor with hroot | hroot <;>
    · rw [hroot]
      field_simp
      nlinarith [hs2]

/-- Witness for C2 at the concrete intersection of `hit_example`. -/
theorem sphere_hit_quadratic_selection_witness :
    Option.map HitRecord.t (Sphere.hit ⟨⟨2, 0, 0⟩, 1⟩ ⟨⟨0, 0, 0⟩, ⟨1, 0, 0⟩⟩ ⟨0, 10⟩)
      = sphereHitRootSpec ⟨⟨2, 0, 0⟩, 1⟩ ⟨⟨0, 0, 0⟩, ⟨1, 0, 0⟩⟩ ⟨0, 10⟩
    ∧ ((0 : ℝ) < (⟨⟨1, 0, 0⟩, ⟨-1, 0, 0⟩, 1, true⟩ : HitRecord).t
        ∧ (⟨⟨1, 0, 0⟩, ⟨-1, 0, 0⟩, 1, true⟩ : HitRecord).t < 10)
    ∧ (⟨⟨0, 0, 0⟩, ⟨1, 0, 0⟩⟩ : Ray).dir.length_squared
        * (⟨⟨1, 0, 0⟩, ⟨-1, 0, 0⟩, 1, true⟩ : HitRecord).t ^ 2
      - 2 * (⟨⟨0, 0, 0⟩, ⟨1, 0, 0⟩⟩ : Ray).dir.dot
          ((⟨⟨2, 0, 0⟩, 1⟩ : Sphere).center - (⟨⟨0, 0, 0⟩, ⟨1, 0, 0⟩⟩ : Ray).orig)
        * (⟨⟨1, 0, 0⟩, ⟨-1, 0, 0⟩, 1, true⟩ : HitRecord).t
      + (((⟨⟨2, 0, 0⟩, 1⟩ : Sphere).center
          - (⟨⟨0, 0, 0⟩, ⟨1, 0, 0⟩⟩ : Ray).orig).length_squared
        - (⟨⟨2, 0, 0⟩, 1⟩ : Sphere).radius * (⟨⟨2, 0, 0⟩, 1⟩ : Sphere).radius) = 0 := by
  have T := sphere_hit_quadratic_selection ⟨⟨2, 0, 0⟩, 1⟩ ⟨⟨0, 0, 0⟩, ⟨1, 0, 0⟩⟩ ⟨0, 10⟩
  have T2 := T.2 _ hit_example
  exact ⟨T.1, T2.1, T2.2 (by norm_num [Vec3.length_squared])⟩

/-- Witness for C4 at the concrete intersection of `hit_example`. -/
theorem sphere_hit_normal_opposes_ray_witness :
    ((⟨⟨1, 0, 0⟩, ⟨-1, 0, 0⟩, 1, true⟩ : HitRecord).front_face = true
      ↔ (⟨⟨0, 0, 0⟩, ⟨1, 0, 0⟩⟩ : Ray).dir.dot
          (((⟨⟨1, 0, 0⟩, ⟨-1, 0, 0⟩, 1, true⟩ : HitRecord).p
            - (⟨⟨2, 0, 0⟩, 1⟩ : Sphere).center).divScalar
              (⟨⟨2, 0, 0⟩, 1⟩ : Sphere).radius) < 0)
    ∧ (⟨⟨1, 0, 0⟩, ⟨-1, 0, 0⟩, 1, true⟩ : HitRecord).normal
        = (if (⟨⟨1, 0, 0⟩, ⟨-1, 0, 0⟩, 1, true⟩ : HitRecord).front_face
            then ((⟨⟨1, 0, 0⟩, ⟨-1, 0, 0⟩, 1, true⟩ : HitRecord).p
              - (⟨⟨2, 0, 0⟩, 1⟩ : Sphere).center).divScalar (⟨⟨2, 0, 0⟩, 1⟩ : Sphere).radius
            else -(((⟨⟨1, 0, 0⟩, ⟨-1, 0, 0⟩, 1, true⟩ : HitRecord).p
              - (⟨⟨2, 0, 0⟩, 1⟩ : Sphere).center).divScalar (⟨⟨2, 0, 0⟩, 1⟩ : Sphere).radius))
    ∧ (⟨⟨1, 0, 0⟩, ⟨-1, 0, 0⟩, 1, true⟩ : HitRecord).normal.dot
        (⟨⟨0, 0, 0⟩, ⟨1, 0, 0⟩⟩ : Ray).dir ≤ 0 :=
  sphere_hit_normal_opposes_ray ⟨⟨2, 0, 0⟩, 1⟩ ⟨⟨0, 0, 0⟩, ⟨1, 0, 0⟩⟩ ⟨0, 10⟩ _ hit_example

/-- C9: a ray with unit direction pointing from outside straight at a
sphere's center hits it with `front_face = true` and `t` exactly the
distance to the center minus the radius (whenever the permissive search
interval surrounds that value); and a ray whose whole line stays strictly
farther than the radius from the center yields no hit. -/
theorem sphere_hit_axial_ray_and_miss :
    (∀ (o c : Point3) (R dist : ℝ) (I : Interval),
        0 < R → R < dist → (c - o).length_squared = dist ^ 2 →
        I.surrounds (dist - R) →
        ∃ rec, Sphere.hit ⟨c, R⟩ ⟨o, (c - o).divScalar dist⟩ I = some rec
          ∧ rec.t = dist - R ∧ rec.front_face = true)
    ∧ (∀ (s : Sphere) (r : Ray) (I : Interval),
        0 < r.dir.length_squared →
        (∀ t : ℝ, s.radius ^ 2 < (r.pointAt t - s.center).length_squared) →
        s.hit r I = none) := by
  constructor
  · intro o c R dist I hR hRd hlsq hsur
    have hdist : 0 < dist := lt_trans hR hRd
    have hdne : dist ≠ 0 := ne_of_gt hdist
    have hA : ((c - o).divScalar dist).length_squared = 1 := by
      rw [Vec3.divScalar, Vec3.length_squared_smul, hlsq]
      field_simp
    have hH : ((c - o).divScalar dist).dot (c - o) = dist := by
      rw [Vec3.divScalar, Vec3.dot_smul_left, Vec3.dot_self_eq_length_squared, hlsq]
      field_simp
      ring
    refine ⟨Sphere.hitRecordAt ⟨c, R⟩ ⟨o, (c - o).divScalar dist⟩ (dist - R), ?_,
      Sphere.hitRecordAt_t _ _ _, ?_⟩
    · apply Sphere.hit_eq_some_root₁ _ _ _ (dist - R) ?_ ?_ hsur
      · dsimp only
        rw [hH, hA, hlsq]
        rw [show dist * dist - 1 * (dist ^ 2 - R * R) = R ^ 2 by ring]
        simp only [not_lt]
        positivity
      · dsimp only
        rw [hH, hA, hlsq]
        rw [show dist * dist - 1 * (dist ^ 2 - R * R) = R ^ 2 by ring,
          Real.sqrt_sq hR.le]
        norm_num
    · have hRne : R ≠ 0 := ne_of_gt hR
      have hpc : Ray.pointAt ⟨o, (c - o).divScalar dist⟩ (dist - R) - c
          = (-(R / dist)) • (c - o) := by
        ext <;>
          · simp only [Ray.pointAt, Vec3.divScalar, Vec3.smul_x, Vec3.smul_y, Vec3.smul_z,
              Vec3.add_x, Vec3.add_y, Vec3.add_z, Vec3.sub_x, Vec3.sub_y, Vec3.sub_z]
            field_simp
            ring
      have hdotval : ((c - o).divScalar dist).dot
          ((Ray.pointAt ⟨o, (c - o).divScalar dist⟩ (dist - R) - c).divScalar R) = -1 := by
        simp only [Vec3.divScalar] at hH hpc ⊢
        rw [hpc, Vec3.smul_smul_eq, Vec3.dot_smul_right, hH]
        field_simp
      rw [Sphere.hitRecordAt_front_face]
      dsimp only
      rw [hdotval]
      simp
  · intro s r I ha hmiss
    apply Sphere.hit_eq_none_of_disc_neg
    have hexp : (r.pointAt (r.dir.dot (s.center - r.orig) / r.dir.length_squared)
          - s.center).length_squared
        = (s.center - r.orig).length_squared
          - (r.dir.dot (s.center - r.orig)) ^ 2 / r.dir.length_squared := by
      have hAne : r.dir.length_squared ≠ 0 := ne_of_gt ha
      simp only [Ray.pointAt, Vec3.length_squared, Vec3.dot, Vec3.smul_x, Vec3.smul_y,
        Vec3.smul_z, Vec3.add_x, Vec3.add_y, Vec3.add_z, Vec3.sub_x, Vec3.sub_y,
        Vec3.sub_z] at *
      field_simp
      ring
    have h1 := hmiss (r.dir.dot (s.center - r.orig) / r.dir.length_squared)
    rw [hexp] at h1
    have h2 : r.dir.length_squared * s.radius ^ 2
        < r.dir.length_squared * ((s.center - r.orig).length_squared
            - (r.dir.dot (s.center - r.orig)) ^ 2 / r.dir.length_squared) :=
      (mul_lt_mul_left ha).mpr h1
    have h3 : r.dir.length_squared * ((s.center - r.orig).length_squared
          - (r.dir.dot (s.center - r.orig)) ^ 2 / r.dir.length_squared)
        = r.dir.length_squared * (s.center - r.orig).length_squared
          - (r.dir.dot (s.center - r.orig)) ^ 2 := by
      field_simp
      ring
    rw [h3] at h2
    nlinarith [h2]

/-- Witness for C9: the unit sphere at `(2,0,0)` seen from the origin along
the axis (hit at `t = 1` with `front_face`), and missed by the ray along
`(0,1,0)`. -/
theorem sphere_hit_axial_ray_and_miss_witness :
    (∃ rec, Sphere.hit ⟨⟨2, 0, 0⟩, 1⟩
        ⟨⟨0, 0, 0⟩, ((⟨2, 0, 0⟩ : Vec3) - ⟨0, 0, 0⟩).divScalar 2⟩ ⟨0, 10⟩ = some rec
      ∧ rec.t = 2 - 1 ∧ rec.front_face = true)
    ∧ Sphere.hit ⟨⟨2, 0, 0⟩, 1⟩ ⟨⟨0, 0, 0⟩, ⟨0, 1, 0⟩⟩ ⟨0, 10⟩ = none := by
  have T := sphere_hit_axial_ray_and_miss
  constructor
  · exact T.1 ⟨0, 0, 0⟩ ⟨2, 0, 0⟩ 1 2 ⟨0, 10⟩ (by norm_num) (by norm_num)
      (by norm_num [Vec3.length_squared]) (by constructor <;> norm_num)
  · refine T.2 ⟨⟨2, 0, 0⟩, 1⟩ ⟨⟨0, 0, 0⟩, ⟨0, 1, 0⟩⟩ ⟨0, 10⟩
      (by norm_num [Vec3.length_squared]) ?_
    intro t
    simp only [Ray.pointAt, Vec3.length_squared, Vec3.smul_x, Vec3.smul_y, Vec3.smul_z,
      Vec3.add_x, Vec3.add_y, Vec3.add_z, Vec3.sub_x, Vec3.sub_y, Vec3.sub_z]
    nlinarith [sq_nonneg t]

theorem Vec3.length_squared_add (a b : Vec3) :
    (a + b).length_squared = a.length_squared + 2 * a.dot b + b.length_squared := by
  simp only [length_squared, dot, add_x, add_y, add_z]; ring

/-- C10: `Metal::scatter` normalizes the reflected vector before adding the
fuzz perturbation, so the scattered direction is
`unit(reflect(dir, normal)) + fuzz_eff · rand_unit` with
`fuzz_eff = fuzz.min(1).max(0)`; when the incoming direction is nonzero, the
normal and random vectors are unit (as the renderer guarantees) and
`fuzz_eff < 1`, the scattered direction has length at least `1 - fuzz_eff`
and in particular is nonzero. -/
theorem metal_scatter_direction_nonzero (m : Metal) (r_in : Ray) (rec : HitRecord)
    (rand_unit : Vec3) (hn : rec.normal.dot rec.normal = 1) (hd : r_in.dir ≠ Vec3.zero)
    (hru : rand_unit.length_squared = 1) (hf : max (min m.fuzz 1) 0 < 1) :
    ∃ scattered attenuation,
      m.scatter r_in rec rand_unit = some (scattered, attenuation)
      ∧ scattered.dir = (Vec3.reflect r_in.dir rec.normal).normalized
          + (max (min m.fuzz 1) 0) • rand_unit
      ∧ (1 - max (min m.fuzz 1) 0) ^ 2 ≤ scattered.dir.length_squared
      ∧ 1 - max (min m.fuzz 1) 0 ≤ scattered.dir.length
      ∧ scattered.dir ≠ Vec3.zero := by
  have hf0 : 0 ≤ max (min m.fuzz 1) 0 := le_max_right _ _
  have hrefl_ne : Vec3.reflect r_in.dir rec.normal ≠ Vec3.zero := by
    intro h
    apply hd
    have hlr := Vec3.length_squared_reflect r_in.dir rec.normal hn
    rw [h] at hlr
    have : r_in.dir.length_squared = 0 := by
      rw [← hlr]; simp [Vec3.length_squared, Vec3.zero]
    exact (Vec3.length_squared_eq_zero_iff _).mp this
  have hu : (Vec3.reflect r_in.dir rec.normal).normalized.length_squared = 1 :=
    Vec3.length_squared_normalized _ hrefl_ne
  have hcs := Vec3.cauchy_schwarz_sq (Vec3.reflect r_in.dir rec.normal).normalized rand_unit
  rw [hu, hru] at hcs
  have hce : -1 ≤ (Vec3.reflect r_in.dir rec.normal).normalized.dot rand_unit := by
    nlinarith [hcs]
  have hlsq : ((Vec3.reflect r_in.dir rec.normal).normalized
        + (max (min m.fuzz 1) 0) • rand_unit).length_squared
      = 1 + 2 * (max (min m.fuzz 1) 0)
          * (Vec3.reflect r_in.dir rec.normal).normalized.dot rand_unit
        + (max (min m.fuzz 1) 0) ^ 2 := by
    rw [Vec3.length_squared_add, Vec3.dot_smul_right, Vec3.length_squared_smul, hu, hru]
    ring
  have hlow : (1 - max (min m.fuzz 1) 0) ^ 2
      ≤ ((Vec3.reflect r_in.dir rec.normal).normalized
          + (max (min m.fuzz 1) 0) • rand_unit).length_squared := by
    rw [hlsq]
    nlinarith [hce, hf0]
  refine ⟨_, _, rfl, rfl, hlow, ?_, ?_⟩
  · have hmono := Real.sqrt_le_sqrt hlow
    rwa [Real.sqrt_sq (by linarith : (0:ℝ) ≤ 1 - max (min m.fuzz 1) 0)] at hmono
  · intro h
    have h' : (Vec3.reflect r_in.dir rec.normal).normalized
        + (max (min m.fuzz 1) 0) • rand_unit = Vec3.zero := h
    have h0 : ((Vec3.reflect r_in.dir rec.normal).normalized
        + (max (min m.fuzz 1) 0) • rand_unit).length_squared = 0 := by
      rw [h']; simp [Vec3.length_squared, Vec3.zero]
    nlinarith [hlow, h0, hf]

/-- Witness for C10 with `fuzz = 1/2`, incoming direction `(0,0,1)`,
unit normal `(1,0,0)` and random unit vector `(0,1,0)`. -/
theorem metal_scatter_direction_nonzero_witness :
    ∃ scattered attenuation,
      Metal.scatter ⟨⟨0, 0, 0⟩, 1 / 2⟩ ⟨⟨0, 0, 0⟩, ⟨0, 0, 1⟩⟩
          ⟨⟨0, 0, 0⟩, ⟨1, 0, 0⟩, 1, true⟩ ⟨0, 1, 0⟩ = some (scattered, attenuation)
      ∧ scattered.dir = (Vec3.reflect (⟨⟨0, 0, 0⟩, ⟨0, 0, 1⟩⟩ : Ray).dir
            (⟨⟨0, 0, 0⟩, ⟨1, 0, 0⟩, 1, true⟩ : HitRecord).normal).normalized
          + (max (min ((1 : ℝ) / 2) 1) 0) • (⟨0, 1, 0⟩ : Vec3)
      ∧ (1 - max (min ((1 : ℝ) / 2) 1) 0) ^ 2 ≤ scattered.dir.length_squared
      ∧ 1 - max (min ((1 : ℝ) / 2) 1) 0 ≤ scattered.dir.length
      ∧ scattered.dir ≠ Vec3.zero :=
  metal_scatter_direction_nonzero ⟨⟨0, 0, 0⟩, 1 / 2⟩ ⟨⟨0, 0, 0⟩, ⟨0, 0, 1⟩⟩
    ⟨⟨0, 0, 0⟩, ⟨1, 0, 0⟩, 1, true⟩ ⟨0, 1, 0⟩
    (by norm_num [Vec3.dot])
    (by simp [Vec3.ext_iff, Vec3.zero])
    (by norm_num [Vec3.length_squared])
    (by norm_num)

/-! ## The nearest-hit property of `HittableList::hit` (C1) -/

/-- The Hittable `hit` contract for a fixed ray, relative to a finite list of
candidate hit records (a sphere has at most two): the object answers `none`
exactly when no candidate `t` is surrounded by the query interval, and
otherwise returns a surrounded candidate of minimal `t`. -/
def HitContract (o : HitFn) (r : Ray) (cands : List HitRecord) : Prop :=
  ∀ I : Interval,
    (o r I = none → ∀ c ∈ cands, ¬ I.surrounds c.t)
    ∧ ∀ rec, o r I = some rec →
        rec ∈ cands ∧ I.surrounds rec.t ∧ ∀ c ∈ cands, I.surrounds c.t → rec.t ≤ c.t

/-- Predicate: `t` is a valid hit parameter of some member (given the members' candidate
lists) strictly inside interval `I`. -/
def ValidT (ms : List (List HitRecord)) (I : Interval) (t : ℝ) : Prop :=
  ∃ cs ∈ ms, ∃ c ∈ cs, c.t = t ∧ I.surrounds t

theorem ValidT.lift_cons {cs : List HitRecord} {ms : List (List HitRecord)}
    {I : Interval} {t : ℝ} (h : ValidT ms I t) : ValidT (cs :: ms) I t := by
  obtain ⟨cs', hcs', c, hc, hct, hsur⟩ := h
  exact ⟨cs', List.mem_cons_of_mem _ hcs', c, hc, hct, hsur⟩

theorem ValidT.shrink {ms : List (List HitRecord)} {t tmin hi hi' : ℝ}
    (h : ValidT ms ⟨tmin, hi⟩ t) (hle : hi ≤ hi') : ValidT ms ⟨tmin, hi'⟩ t := by
  obtain ⟨cs', hcs', c, hc, hct, hsur⟩ := h
  exact ⟨cs', hcs', c, hc, hct, hsur.1, lt_of_lt_of_le hsur.2 hle⟩

/-- Invariant of the `HittableList::hit` loop: starting from upper bound
`closest` and accumulator `acc`, the loop leaves `acc` untouched when no
member has a valid candidate in `(tmin, closest)`, and otherwise returns a
member record of minimal valid `t` in `(tmin, closest)`. -/
theorem hitLoop_spec (r : Ray) (tmin : ℝ) :
    ∀ (os : List HitFn) (ms : List (List HitRecord)),
      List.Forall₂ (fun o cs => HitContract o r cs) os ms →
      ∀ (closest : ℝ) (acc : Option HitRecord),
        ((¬ ∃ t, ValidT ms ⟨tmin, closest⟩ t) → hitLoop r tmin os closest acc = acc)
        ∧ ((∃ t, ValidT ms ⟨tmin, closest⟩ t) →
            ∃ rec, hitLoop r tmin os closest acc = some rec
              ∧ ValidT ms ⟨tmin, closest⟩ rec.t
              ∧ (∃ cs ∈ ms, rec ∈ cs)
              ∧ ∀ t, ValidT ms ⟨tmin, closest⟩ t → rec.t ≤ t) := by
  intro os ms hsat
  induction hsat with
  | nil =>
    intro closest acc
    constructor
    · intro _; rfl
    · rintro ⟨t, cs, hcs, -⟩
      exact absurd hcs (List.not_mem_nil cs)
  | @cons o cs os' ms' ho hs ih =>
    intro closest acc
    rcases hres : o r ⟨tmin, closest⟩ with - | rec
    · -- the head object reports no hit in (tmin, closest)
      have hnone := (ho ⟨tmin, closest⟩).1 hres
      have hval_iff : ∀ t, ValidT (cs :: ms') ⟨tmin, closest⟩ t
          ↔ ValidT ms' ⟨tmin, closest⟩ t := by
        intro t
        constructor
        · rintro ⟨cs', hcs', c, hc, hct, hsur⟩
          rcases List.mem_cons.mp hcs' with rfl | h'
          · exact absurd (hct ▸ hsur) (hnone c hc)
          · exact ⟨cs', h', c, hc, hct, hsur⟩
        · exact ValidT.lift_cons
      obtain ⟨ih1, ih2⟩ := ih closest acc
      have hloop : hitLoop r tmin (o :: os') closest acc
          = hitLoop r tmin os' closest acc := by
        simp only [hitLoop, hres]
      constructor
      · intro hno
        rw [hloop]
        exact ih1 fun ⟨t, ht⟩ => hno ⟨t, (hval_iff t).mpr ht⟩
      · rintro ⟨t, ht⟩
        obtain ⟨rec, hrec, hv, ⟨cs', hcs', hmem⟩, hmin⟩ := ih2 ⟨t, (hval_iff t).mp ht⟩
        exact ⟨rec, hloop ▸ hrec, (hval_iff _).mpr hv,
          ⟨cs', List.mem_cons_of_mem _ hcs', hmem⟩,
          fun t' ht' => hmin t' ((hval_iff t').mp ht')⟩
    · -- the head object reports `rec`, minimal among its own candidates
      obtain ⟨hmem₀, hsur₀, hmin₀⟩ := (ho ⟨tmin, closest⟩).2 rec hres
      have hloop : hitLoop r tmin (o :: os') closest acc
          = hitLoop r tmin os' rec.t (some rec) := by
        simp only [hitLoop, hres]
      have valid_rec : ValidT (cs :: ms') ⟨tmin, closest⟩ rec.t :=
        ⟨cs, List.mem_cons_self _ _, rec, hmem₀, rfl, hsur₀⟩
      obtain ⟨jh1, jh2⟩ := ih rec.t (some rec)
      constructor
      · intro hno
        exact absurd ⟨rec.t, valid_rec⟩ hno
      · rintro -
        by_cases hrest : ∃ t', ValidT ms' ⟨tmin, rec.t⟩ t'
        · obtain ⟨rec', hrec', hv', ⟨cs', hcs', hmem'⟩, hmin'⟩ := jh2 hrest
          have hlt' : rec'.t < rec.t := by
            obtain ⟨-, -, -, -, -, -, h2⟩ := hv'
            exact h2
          refine ⟨rec', hloop ▸ hrec',
            (hv'.shrink (le_of_lt hsur₀.2)).lift_cons,
            ⟨cs', List.mem_cons_of_mem _ hcs', hmem'⟩, ?_⟩
          rintro t' ⟨cs'', hcs'', c, hc, hct, hsur'⟩
          rcases List.mem_cons.mp hcs'' with rfl | h''
          · have := hmin₀ c hc (hct ▸ hsur')
            rw [hct] at this
            linarith
          · by_cases ht'lt : t' < rec.t
            · exact hmin' t' ⟨cs'', h'', c, hc, hct, hsur'.1, ht'lt⟩
            · linarith [not_lt.mp ht'lt]
        · refine ⟨rec, hloop ▸ jh1 hrest, valid_rec,
            ⟨cs, List.mem_cons_self _ _, hmem₀⟩, ?_⟩
          rintro t' ⟨cs'', hcs'', c, hc, hct, hsur'⟩
          rcases List.mem_cons.mp hcs'' with rfl | h''
          · have := hmin₀ c hc (hct ▸ hsur')
            rw [hct] at this
            exact this
          · by_contra hlt
            push_neg at hlt
            exact hrest ⟨t', cs'', h'', c, hc, hct, hsur'.1, hlt⟩

/-- C1 (amended): over members satisfying the Hittable contract,
`HittableList::hit` returns `None` exactly when no member has a valid hit
strictly inside the interval; any record it returns belongs to a member and
has the globally smallest valid `t` (later loop iterations only accept
strictly closer candidates, the upper bound having shrunk to the best `t`);
and the presence of a hit and its winning `t` are independent of insertion
order — though the record itself may differ between orders when two members
hit at exactly the same `t`. -/
theorem hittableList_nearest_hit (r : Ray) (I : Interval)
    (os : List HitFn) (ms : List (List HitRecord))
    (hsat : List.Forall₂ (fun o cs => HitContract o r cs) os ms) :
    (hittableListHit os r I = none ↔ ¬ ∃ t, ValidT ms I t)
    ∧ (∀ rec, hittableListHit os r I = some rec →
        ValidT ms I rec.t ∧ (∃ cs ∈ ms, rec ∈ cs) ∧ ∀ t, ValidT ms I t → rec.t ≤ t)
    ∧ (∀ (os' : List HitFn) (ms' : List (List HitRecord)),
        List.Forall₂ (fun o cs => HitContract o r cs) os' ms' →
        (os.zip ms).Perm (os'.zip ms') →
        Option.map HitRecord.t (hittableListHit os r I)
          = Option.map HitRecord.t (hittableListHit os' r I)) := by
  have S := hitLoop_spec r I.min os ms hsat I.max none
  refine ⟨⟨?_, ?_⟩, ?_, ?_⟩
  · intro hnone hex
    obtain ⟨rec, hrec, -⟩ := S.2 hex
    rw [show hittableListHit os r I = hitLoop r I.min os I.max none from rfl] at hnone
    rw [hnone] at hrec
    exact Option.noConfusion hrec
  · intro hno
    exact S.1 hno
  · intro rec hrec
    by_cases hex : ∃ t, ValidT ms I t
    · obtain ⟨rec', hrec', h1, h2, h3⟩ := S.2 hex
      rw [show hittableListHit os r I = hitLoop r I.min os I.max none from rfl] at hrec
      rw [hrec] at hrec'
      obtain rfl : rec' = rec := (Option.some.injEq _ _ ▸ hrec').symm
      exact ⟨h1, h2, h3⟩
    · have := S.1 hex
      rw [show hittableListHit os r I = hitLoop r I.min os I.max none from rfl] at hrec
      rw [this] at hrec
      exact Option.noConfusion hrec
  · intro os' ms' hsat' hperm
    have hlen : os.length = ms.length := hsat.length_eq
    have hlen' : os'.length = ms'.length := hsat'.length_eq
    have hms : ms.Perm ms' := by
      have h1 : (os.zip ms).map Prod.snd = ms := List.map_snd_zip os ms (le_of_eq hlen.symm)
      have h2 : (os'.zip ms').map Prod.snd = ms' :=
        List.map_snd_zip os' ms' (le_of_eq hlen'.symm)
      exact h1 ▸ h2 ▸ hperm.map Prod.snd
    have hval : ∀ t, ValidT ms I t ↔ ValidT ms' I t := by
      intro t
      constructor
      · rintro ⟨cs', hcs', c, hc, hct, hsur⟩
        exact ⟨cs', hms.mem_iff.mp hcs', c, hc, hct, hsur⟩
      · rintro ⟨cs', hcs', c, hc, hct, hsur⟩
        exact ⟨cs', hms.mem_iff.mpr hcs', c, hc, hct, hsur⟩
    have S' := hitLoop_spec r I.min os' ms' hsat' I.max none
    by_cases hex : ∃ t, ValidT ms I t
    · obtain ⟨rec, hrec, hv, -, hmin⟩ := S.2 hex
      obtain ⟨rec', hrec', hv', -, hmin'⟩ := S'.2 ⟨hex.choose, (hval _).mp hex.choose_spec⟩
      rw [show hittableListHit os r I = hitLoop r I.min os I.max none from rfl,
        show hittableListHit os' r I = hitLoop r I.min os' I.max none from rfl,
        hrec, hrec']
      have hle : rec.t ≤ rec'.t := hmin _ ((hval _).mpr hv')
      have hge : rec'.t ≤ rec.t := hmin' _ ((hval _).mp hv)
      simp [le_antisymm hle hge]
    · rw [show hittableListHit os r I = hitLoop r I.min os I.max none from rfl,
        show hittableListHit os' r I = hitLoop r I.min os' I.max none from rfl,
        S.1 hex, S'.1 (fun ⟨t, ht⟩ => hex ⟨t, (hval t).mpr ht⟩)]

/-- The unit sphere at `(2, σ, 0)` with `σ² = 1` is tangent to the ray from
the origin along `(1,0,0)`: a single (double) root at `t = 2`, contact point
`(2,0,0)`, stored normal `(0, σ, 0)`, `front_face = false` (grazing). -/
theorem tangent_sphere_hit (σ : ℝ) (hσ : σ * σ = 1) :
    Sphere.hit ⟨⟨2, σ, 0⟩, 1⟩ ⟨⟨0, 0, 0⟩, ⟨1, 0, 0⟩⟩ ⟨0.001, 100⟩
      = some ⟨⟨2, 0, 0⟩, ⟨0, σ, 0⟩, 2, false⟩ := by
  have hrec : Sphere.hitRecordAt ⟨⟨2, σ, 0⟩, 1⟩ ⟨⟨0, 0, 0⟩, ⟨1, 0, 0⟩⟩ 2
      = (⟨⟨2, 0, 0⟩, ⟨0, σ, 0⟩, 2, false⟩ : HitRecord) := by
    have hp : Ray.pointAt ⟨⟨0, 0, 0⟩, ⟨1, 0, 0⟩⟩ 2 = (⟨2, 0, 0⟩ : Vec3) := by
      ext <;> norm_num [Ray.pointAt]
    have hout : ((⟨2, 0, 0⟩ : Vec3) - ⟨2, σ, 0⟩).divScalar 1 = (⟨0, -σ, 0⟩ : Vec3) := by
      ext <;> norm_num [Vec3.divScalar]
    have hdot : ¬ ((⟨1, 0, 0⟩ : Vec3).dot ⟨0, -σ, 0⟩ < 0) := by norm_num [Vec3.dot]
    have hneg : -(⟨0, -σ, 0⟩ : Vec3) = (⟨0, σ, 0⟩ : Vec3) := by ext <;> norm_num
    simp only [Sphere.hitRecordAt, HitRecord.set_face_normal, hp, hout]
    simp [hdot, hneg]
  refine (Sphere.hit_eq_some_root₁ ⟨⟨2, σ, 0⟩, 1⟩ ⟨⟨0, 0, 0⟩, ⟨1, 0, 0⟩⟩ ⟨0.001, 100⟩ 2
    ?_ ?_ ?_).trans (congrArg some hrec)
  · simp only [Vec3.dot, Vec3.length_squared, Vec3.sub_x, Vec3.sub_y, Vec3.sub_z]
    norm_num
    nlinarith [hσ]
  · have harg : (⟨⟨0, 0, 0⟩, ⟨1, 0, 0⟩⟩ : Ray).dir.dot ((⟨⟨2, σ, 0⟩, 1⟩ : Sphere).center
        - (⟨⟨0, 0, 0⟩, ⟨1, 0, 0⟩⟩ : Ray).orig) * (⟨⟨0, 0, 0⟩, ⟨1, 0, 0⟩⟩ : Ray).dir.dot
          ((⟨⟨2, σ, 0⟩, 1⟩ : Sphere).center - (⟨⟨0, 0, 0⟩, ⟨1, 0, 0⟩⟩ : Ray).orig)
        - (⟨⟨0, 0, 0⟩, ⟨1, 0, 0⟩⟩ : Ray).dir.length_squared
          * (((⟨⟨2, σ, 0⟩, 1⟩ : Sphere).center
              - (⟨⟨0, 0, 0⟩, ⟨1, 0, 0⟩⟩ : Ray).orig).length_squared
            - (⟨⟨2, σ, 0⟩, 1⟩ : Sphere).radius * (⟨⟨2, σ, 0⟩, 1⟩ : Sphere).radius) = 0 := by
      simp only [Vec3.dot, Vec3.length_squared, Vec3.sub_x, Vec3.sub_y, Vec3.sub_z]
      norm_num
      nlinarith [hσ]
    rw [harg]
    norm_num [Real.sqrt_zero, Vec3.dot, Vec3.length_squared]
  · constructor <;> norm_num

/-- The same tangent sphere reports no hit once the search interval's upper
bound has shrunk to 2: both roots equal 2 and `surrounds` is strict. -/
theorem tangent_sphere_none (σ : ℝ) (hσ : σ * σ = 1) :
    Sphere.hit ⟨⟨2, σ, 0⟩, 1⟩ ⟨⟨0, 0, 0⟩, ⟨1, 0, 0⟩⟩ ⟨0.001, 2⟩ = none := by
  have harg : (⟨⟨0, 0, 0⟩, ⟨1, 0, 0⟩⟩ : Ray).dir.dot ((⟨⟨2, σ, 0⟩, 1⟩ : Sphere).center
      - (⟨⟨0, 0, 0⟩, ⟨1, 0, 0⟩⟩ : Ray).orig) * (⟨⟨0, 0, 0⟩, ⟨1, 0, 0⟩⟩ : Ray).dir.dot
        ((⟨⟨2, σ, 0⟩, 1⟩ : Sphere).center - (⟨⟨0, 0, 0⟩, ⟨1, 0, 0⟩⟩ : Ray).orig)
      - (⟨⟨0, 0, 0⟩, ⟨1, 0, 0⟩⟩ : Ray).dir.length_squared
        * (((⟨⟨2, σ, 0⟩, 1⟩ : Sphere).center
            - (⟨⟨0, 0, 0⟩, ⟨1, 0, 0⟩⟩ : Ray).orig).length_squared
          - (⟨⟨2, σ, 0⟩, 1⟩ : Sphere).radius * (⟨⟨2, σ, 0⟩, 1⟩ : Sphere).radius) = 0 := by
    simp only [Vec3.dot, Vec3.length_squared, Vec3.sub_x, Vec3.sub_y, Vec3.sub_z]
    norm_num
    nlinarith [hσ]
  apply Sphere.hit_eq_none_of_no_valid_root <;>
    · rw [harg]
      norm_num [Real.sqrt_zero, Vec3.dot, Vec3.length_squared, Interval.surrounds]

/-- Counterexample to C1 as stated: two genuine hittables (unit spheres
tangent to the ray at the same `t = 2` from opposite sides) make
`HittableList::hit` return different records in the two insertion orders —
the winning `t` agrees, but the stored normals differ, so the result is not
independent of insertion order at a tie. -/
theorem hittableList_order_dependent_at_tie :
    hittableListHit [Sphere.hit ⟨⟨2, 1, 0⟩, 1⟩, Sphere.hit ⟨⟨2, -1, 0⟩, 1⟩]
        ⟨⟨0, 0, 0⟩, ⟨1, 0, 0⟩⟩ ⟨0.001, 100⟩
      ≠ hittableListHit [Sphere.hit ⟨⟨2, -1, 0⟩, 1⟩, Sphere.hit ⟨⟨2, 1, 0⟩, 1⟩]
        ⟨⟨0, 0, 0⟩, ⟨1, 0, 0⟩⟩ ⟨0.001, 100⟩ := by
  have hA := tangent_sphere_hit 1 (by norm_num)
  have hB := tangent_sphere_hit (-1) (by norm_num)
  have hA2 := tangent_sphere_none 1 (by norm_num)
  have hB2 := tangent_sphere_none (-1) (by norm_num)
  have e1 : hittableListHit [Sphere.hit ⟨⟨2, 1, 0⟩, 1⟩, Sphere.hit ⟨⟨2, -1, 0⟩, 1⟩]
      ⟨⟨0, 0, 0⟩, ⟨1, 0, 0⟩⟩ ⟨0.001, 100⟩ = some ⟨⟨2, 0, 0⟩, ⟨0, 1, 0⟩, 2, false⟩ := by
    simp only [hittableListHit, hitLoop, hA, hB2]
  have e2 : hittableListHit [Sphere.hit ⟨⟨2, -1, 0⟩, 1⟩, Sphere.hit ⟨⟨2, 1, 0⟩, 1⟩]
      ⟨⟨0, 0, 0⟩, ⟨1, 0, 0⟩⟩ ⟨0.001, 100⟩ = some ⟨⟨2, 0, 0⟩, ⟨0, -1, 0⟩, 2, false⟩ := by
    simp only [hittableListHit, hitLoop, hB, hA2]
  intro h
  rw [e1, e2] at h
  simp only [Option.some.injEq, HitRecord.mk.injEq, Vec3.mk.injEq] at h
  norm_num at h

/-- Witness for C1 (amended) with a single contract-satisfying object whose
only candidate is a record at `t = 2`. -/
theorem hittableList_nearest_hit_witness :
    hittableListHit
        [fun _ I => if I.surrounds 2 then some (⟨⟨2, 0, 0⟩, ⟨0, 1, 0⟩, 2, false⟩ : HitRecord)
          else none]
        ⟨⟨0, 0, 0⟩, ⟨1, 0, 0⟩⟩ ⟨0, 10⟩ = none
      ↔ ¬ ∃ t, ValidT [[⟨⟨2, 0, 0⟩, ⟨0, 1, 0⟩, 2, false⟩]] ⟨0, 10⟩ t := by
  have hcontract : HitContract
      (fun _ I => if I.surrounds 2 then some (⟨⟨2, 0, 0⟩, ⟨0, 1, 0⟩, 2, false⟩ : HitRecord)
        else none)
      ⟨⟨0, 0, 0⟩, ⟨1, 0, 0⟩⟩ [⟨⟨2, 0, 0⟩, ⟨0, 1, 0⟩, 2, false⟩] := by
    intro I
    constructor
    · intro hnone c hc
      dsimp only at hnone
      obtain rfl := List.mem_singleton.mp hc
      by_cases h : I.surrounds (2 : ℝ)
      · rw [if_pos h] at hnone
        exact Option.noConfusion hnone
      · exact h
    · intro rec' hrec'
      dsimp only at hrec'
      by_cases h : I.surrounds (2 : ℝ)
      · rw [if_pos h] at hrec'
        obtain rfl : (⟨⟨2, 0, 0⟩, ⟨0, 1, 0⟩, 2, false⟩ : HitRecord) = rec' :=
          (Option.some.injEq _ _ ▸ hrec')
        refine ⟨List.mem_singleton.mpr rfl, h, ?_⟩
        intro c hc _
        obtain rfl := List.mem_singleton.mp hc
        exact le_refl _
      · rw [if_neg h] at hrec'
        exact Option.noConfusion hrec'
  exact (hittableList_nearest_hit ⟨⟨0, 0, 0⟩, ⟨1, 0, 0⟩⟩ ⟨0, 10⟩ _ _
    (List.Forall₂.cons hcontract List.Forall₂.nil)).1

/-- Witness for C8 at `v = (1,2,3)`, `val = 5`, `i = 3`. -/
theorem vec3_index_spec_witness :
    Vec3.index ⟨1, 2, 3⟩ 0 = some 1 ∧ Vec3.index ⟨1, 2, 3⟩ 1 = some 2
    ∧ Vec3.index ⟨1, 2, 3⟩ 2 = some 3
    ∧ Vec3.indexMutSet ⟨1, 2, 3⟩ 0 5 = some ⟨5, 2, 3⟩
    ∧ Vec3.indexMutSet ⟨1, 2, 3⟩ 1 5 = some ⟨1, 5, 3⟩
    ∧ Vec3.indexMutSet ⟨1, 2, 3⟩ 2 5 = some ⟨1, 2, 5⟩
    ∧ Vec3.index ⟨1, 2, 3⟩ 3 = none ∧ Vec3.indexMutSet ⟨1, 2, 3⟩ 3 5 = none :=
  vec3_index_spec ⟨1, 2, 3⟩ 5 3 (by decide)

end RTWeekend
